import Mathlib

/-!
Verification development for the Batch_creator_bat repository
(`converter.py`, the byte-capped CLI pipeline, and `converter_gui_ctk.py`,
the count-capped GUI pipeline).

The Python sources are shallowly embedded below:
pure string manipulation becomes functions on `List Char` / `String`,
the CSV dict rows of `csv.DictReader` become association lists,
the stateful ZIP packaging loops become explicit folds over a state record,
and the exception flow (`ValueError`, `RuntimeError`, handler clauses)
becomes `Except` values and a small outcome type.
-/

/-! ## Python string primitives

Models of the Python `str` operations used by the sources, restricted to
the ASCII data the pipeline actually manipulates.
-/

/-- Python `str.lower()` on a character (ASCII range, as used by the code). -/
def pyLowerChar (c : Char) : Char := c.toLower

/-- Python `str.lower()`. -/
def pyLower (s : String) : String := String.mk (s.data.map pyLowerChar)

/-- Drop matching characters from both ends of a list: the common core of
Python `str.strip()` and `str.strip("_ ")`. -/
def dropEnds (p : Char → Bool) (l : List Char) : List Char :=
  ((l.dropWhile p).reverse.dropWhile p).reverse

/-- Python `str.strip()` (whitespace from both ends). -/
def pyStripWS (s : String) : String := String.mk (dropEnds Char.isWhitespace s.data)

/-- Python `s.endswith(t)` as a suffix test on the character lists. -/
def pyEndsWith (s t : String) : Bool := t.data.isSuffixOf s.data

/-- Python `os.path.basename`: the part after the last path separator
(`ntpath` splits on both `/` and the backslash). -/
def pyBasename (s : String) : String :=
  String.mk ((s.data.reverse.takeWhile (fun c => !(c = '/' || c = '\\'))).reverse)

/-! ## Shared manifest model

`csv.DictReader` presents each data row as a dict keyed by the header
cells; we model such a dict as an association list in insertion order.
-/

/-- One manifest row as produced by `csv.DictReader`: header cell ↦ value. -/
abbrev Row := List (String × String)

/-- Python `row.get(k) or ""`: a missing key or a `None` value reads as `""`. -/
def rowGet (r : Row) (k : String) : String := (r.lookup k).getD ""

/-- Python dict assignment `row[k] = v`: overwrite in place when the key is
present, append otherwise (insertion-order semantics). -/
def setKey (r : Row) (k v : String) : Row :=
  if (r.lookup k).isSome then r.map (fun p => if p.1 == k then (k, v) else p)
  else r ++ [(k, v)]

/-- `csv.DictReader` row construction: keys are the header fieldnames, cells
missing at the end read as empty (`None`) values. -/
def dictRow (header : List String) (cells : List String) : Row :=
  header.zip (cells ++ List.replicate (header.length - cells.length) "")

/-- `REQUIRED_COLUMNS` (identical in `converter.py` and
`converter_gui_ctk.py`). -/
def REQUIRED_COLUMNS : List String :=
  ["batch", "filename", "material", "part_id",
   "copies", "next_step", "order_id", "technology"]

/-- Header-cell normalization `h.strip().lower()` used by both header checks. -/
def normCell (s : String) : String := pyLower (pyStripWS s)

/-! ## converter.py: CSV validation (`validate_and_fix_meta_buffer`) -/

namespace Conv

/-- The distinct exceptions `validate_and_fix_meta_buffer` can raise:
the header-mismatch `ValueError` (line 143), the cancellation
`RuntimeError` from `check_cancel` (line 23), and the `ValueError`
`csv.DictWriter` raises for a row key outside its fieldnames. -/
inductive PyErr where
  | headerMismatch
  | cancelled
  | extraKey
  deriving DecidableEq, Repr

/-- The `copies` fix of lines 148-150: empty or `"0"` after strip → `"1"`. -/
def fixCopies (r : Row) : Row :=
  let v := pyStripWS (rowGet r "copies")
  if v == "" || v == "0" then setKey r "copies" "1" else r

/-- The filename-extension fix of lines 151-154: a nonempty stripped name
not ending in `.stl` (case-insensitive) gains the extension. -/
def fixFilename (r : Row) : Row :=
  let f := pyStripWS (rowGet r "filename")
  if f != "" && !(pyEndsWith (pyLower f) ".stl") then
    setKey r "filename" (f ++ ".stl")
  else r

/-- Per-row body of the fix loop (lines 146-154). -/
def fixRow (r : Row) : Row := fixFilename (fixCopies r)

/-- `csv.DictWriter(..., fieldnames=REQUIRED_COLUMNS).writerow`:
raises `ValueError` when the row dict holds a key outside the fieldnames
(`extrasaction="raise"` default), otherwise emits the values in schema
order, absent keys as the empty rest value. -/
def writeDictRow (r : Row) : Except PyErr (List String) :=
  if r.all (fun p => REQUIRED_COLUMNS.contains p.1) then
    Except.ok (REQUIRED_COLUMNS.map (fun k => rowGet r k))
  else Except.error PyErr.extraKey

/-- `csv.DictWriter.writerows`: write each row in turn, propagating the
first `ValueError`; rows before the offending one are already in the
buffer, but the exception escapes the function, so only the error is
observable. -/
def writeRows : List Row → Except PyErr (List (List String))
  | [] => Except.ok []
  | r :: rs =>
    match writeDictRow r with
    | Except.error e => Except.error e
    | Except.ok out =>
      match writeRows rs with
      | Except.error e => Except.error e
      | Except.ok outs => Except.ok (out :: outs)

/-- `validate_and_fix_meta_buffer` (converter.py lines 133-168): header
check over the first `len(REQUIRED_COLUMNS)` cells, per-row cancellation
check, copies/filename fixes, then the `DictWriter` pass producing the
output buffer rows. `cancel` is the process-wide `CANCEL_FLAG` observed by
`check_cancel` inside the loop. -/
def validate_and_fix_meta_buffer (cancel : Bool) (header : List String)
    (rawRows : List (List String)) : Except PyErr (List (List String)) :=
  if (header.take REQUIRED_COLUMNS.length).map normCell ≠ REQUIRED_COLUMNS then
    Except.error PyErr.headerMismatch
  else
    let rows := rawRows.map (dictRow header)
    if cancel && !rows.isEmpty then Except.error PyErr.cancelled
    else writeRows (rows.map fixRow)

end Conv

/-! ## converter_gui_ctk.py: filename sanitization -/

namespace Gui

/-- The allow-list of `sanitize_filename` (line 143): `[A-Za-z0-9_.]`. -/
def allowedChar (c : Char) : Bool :=
  (('A' ≤ c && c ≤ 'Z') || ('a' ≤ c && c ≤ 'z') || ('0' ≤ c && c ≤ '9')
    || c == '_' || c == '.')

/-- `re.sub(r"[^A-Za-z0-9_.]", "_", value)` on one character. -/
def replChar (c : Char) : Char := if allowedChar c then c else '_'

/-- `re.sub(r"_+", "_", s)`: collapse each run of underscores to one. -/
def collapseUnd : List Char → List Char
  | [] => []
  | [c] => [c]
  | a :: b :: r =>
    if a == '_' && b == '_' then collapseUnd (b :: r)
    else a :: collapseUnd (b :: r)

/-- The strip set of `sanitized.strip("_ ")`. -/
def stripUndSp (c : Char) : Bool := c == '_' || c == ' '

/-- `sanitize_filename` (converter_gui_ctk.py lines 141-146). -/
def sanitize_filename (value : String) : String :=
  String.mk (dropEnds stripUndSp (collapseUnd (value.data.map replChar)))

end Gui

/-! ## Packaging actions and the cancellation token

The packaging loops perform a sequence of primitive actions; we record
them so that the placement of the cooperative cancellation checks becomes
a statement about the action trace. `runPkgAux` executes a trace against a
token that becomes set at a given action index: a `check` at or after that
index observes the token and aborts (the `RuntimeError` path), every other
action simply happens — cancellation is cooperative, not preemptive.
-/

/-- One primitive action of a packaging loop. -/
inductive PkgAct where
  | check
  | openA (name : String)
  | meta (rows : List Row)
  | file (name : String)
  | close
  deriving DecidableEq, Repr

/-- Execute a trace with the cancellation token set from action index `t`
on: returns the member files actually written and whether the run ended on
an observed cancellation. -/
def runPkgAux (t : Nat) : Nat → List PkgAct → List String → List String × Bool
  | _, [], acc => (acc, false)
  | i, PkgAct.check :: r, acc =>
    if t ≤ i then (acc, true) else runPkgAux t (i + 1) r acc
  | i, PkgAct.file n :: r, acc => runPkgAux t (i + 1) r (acc ++ [n])
  | i, _ :: r, acc => runPkgAux t (i + 1) r acc

/-- Run a packaging trace with the token set from index `t` on. -/
def runPkg (t : Nat) (tr : List PkgAct) : List String × Bool := runPkgAux t 0 tr []

/-- Does a `check` precede every individual `file` action (with no other
`file` in between)? The boolean argument records whether a check has fired
since the last file write. -/
def fileGuarded : List PkgAct → Bool → Bool
  | [], _ => true
  | PkgAct.check :: r, _ => fileGuarded r true
  | PkgAct.file _ :: r, armed => armed && fileGuarded r false
  | _ :: r, armed => fileGuarded r armed

/-- Does a `check` precede every `openA` action (with no other `openA` in
between)? -/
def archGuarded : List PkgAct → Bool → Bool
  | [], _ => true
  | PkgAct.check :: r, _ => archGuarded r true
  | PkgAct.openA _ :: r, armed => armed && archGuarded r false
  | _ :: r, armed => archGuarded r armed

/-! ## converter.py: byte-capped ZIP packaging (`zip_with_limit`) -/

namespace Conv

/-- `MAX_ZIP_SIZE_BYTES` as fixed inside `zip_with_limit` (lines 183-184). -/
def MAX_ZIP_SIZE_MB : Nat := 900
def MAX_ZIP_SIZE_BYTES : Nat := MAX_ZIP_SIZE_MB * 1024 * 1024

/-- One entry of `file_list` together with the filesystem facts the loop
reads: `os.path.isfile` and `os.path.getsize`. -/
structure BFile where
  name : String
  size : Nat
  onDisk : Bool
  deriving DecidableEq, Repr

/-- One finished ZIP: its filename, its metadata entries (each one
`meta.csv` payload that was written into it), and its member files. -/
structure Archive where
  name : String
  metaEntries : List (List Row)
  files : List BFile
  deriving DecidableEq, Repr

/-- The member-file payload of an archive: the summed on-disk sizes of its
member files, the metadata entry excluded. -/
def payloadOf (l : List BFile) : Nat := (l.map BFile.size).sum

def Archive.payload (a : Archive) : Nat := payloadOf a.files

/-- Archive naming of `new_zip` (line 196): always
`{zip_base_name}_part{current_zip_index}.zip`. -/
def zipName (base : String) (i : Nat) : String :=
  base ++ "_part" ++ toString i ++ ".zip"

/-- Loop state of `zip_with_limit`: `current_zip_index`, the members and
accumulated size of the open ZIP, the ZIPs closed so far, and the action
trace. -/
structure ZState where
  idx : Nat
  cur : List BFile
  size : Nat
  closed : List Archive
  acts : List PkgAct
  deriving Repr

/-- State after `new_zip()` started the first archive (lines 205-206). -/
def zinit (base : String) : ZState :=
  { idx := 1, cur := [], size := 0, closed := [],
    acts := [PkgAct.openA (zipName base 1)] }

/-- One iteration of the packaging loop (lines 209-229): skip a file that
is not on disk; close the open ZIP and start the next when the file would
push `current_size` over the cap; then write the file. There is no
cancellation check anywhere in this loop. -/
def zstep (base : String) (st : ZState) (f : BFile) : ZState :=
  if !f.onDisk then st
  else if MAX_ZIP_SIZE_BYTES < st.size + f.size then
    { idx := st.idx + 1
      cur := [f]
      size := f.size
      closed := st.closed ++
        [{ name := zipName base st.idx, metaEntries := [], files := st.cur }]
      acts := st.acts ++
        [PkgAct.close, PkgAct.openA (zipName base (st.idx + 1)), PkgAct.file f.name] }
  else
    { st with cur := st.cur ++ [f], size := st.size + f.size,
              acts := st.acts ++ [PkgAct.file f.name] }

/-- Result of `zip_with_limit`: the archives produced and what happened. -/
structure ZResult where
  archives : List Archive
  acts : List PkgAct
  deriving Repr

/-- `zip_with_limit` (lines 177-245): fold the loop over `file_list`, then
finalize — `meta.csv` is written once, into the still-open last archive
only (lines 236-237), and that archive is closed. -/
def zip_with_limit (zip_base_name : String) (file_list : List BFile)
    (meta_buf : Option (List Row)) : ZResult :=
  let st := file_list.foldl (zstep zip_base_name) (zinit zip_base_name)
  { archives := st.closed ++
      [{ name := zipName zip_base_name st.idx
         metaEntries := (match meta_buf with | some m => [m] | none => [])
         files := st.cur }]
    acts := st.acts ++
      (match meta_buf with | some m => [PkgAct.meta m] | none => []) ++ [PkgAct.close] }

/-- The per-folder packaging step of `main` (lines 301-307): one
`check_cancel()` before `zip_with_limit` runs; `zip_with_limit` itself
never consults the token. -/
def conv_folder_trace (base : String) (file_list : List BFile)
    (meta_buf : Option (List Row)) : List PkgAct :=
  PkgAct.check :: (zip_with_limit base file_list meta_buf).acts

/-! ### Run outcomes of `main` (converter.py lines 250-330)

The body of `main` ends in one of three ways: it returns normally, the
cancellation `RuntimeError` escapes, or some other exception escapes. The
handlers map these to an exit code and a log record. -/

/-- How the `try` body of `main` (or of the GUI `run_conversion`) ended. -/
inductive RunEnd where
  | ok
  | cancelled (msg : String)
  | failed (msg : String)
  deriving DecidableEq, Repr

/-- Log severity of the terminal record. -/
inductive Severity where
  | info
  | warning
  | error
  deriving DecidableEq, Repr

/-- Exit code of `main`: 0 on success (line 321), 1 from the
`RuntimeError` handler (lines 323-326), 1 from the generic handler
(lines 327-330). -/
def mainExitCode : RunEnd → Nat
  | RunEnd.ok => 0
  | RunEnd.cancelled _ => 1
  | RunEnd.failed _ => 1

/-- Severity of the terminal log record of `main`: `logger.warning` for
the cancellation `RuntimeError`, `logger.exception` (error) otherwise. -/
def mainLogSeverity : RunEnd → Severity
  | RunEnd.ok => Severity.info
  | RunEnd.cancelled _ => Severity.warning
  | RunEnd.failed _ => Severity.error

end Conv

/-! ## converter_gui_ctk.py: count-capped packaging (`run_conversion`) -/

namespace Gui

/-- `MAX_STL_PER_ZIP` (line 26). -/
def MAX_STL_PER_ZIP : Nat := 100

/-- Fuel-driven core of the chunk split; the fuel only bounds the number
of chunks (one below suffices per chunk of at least one row), so any fuel
at least the row count computes the same list. -/
def chunksFuel : Nat → List Row → List (List Row)
  | _, [] => []
  | 0, _ :: _ => []
  | Nat.succ n, l@(_ :: _) => l.take MAX_STL_PER_ZIP :: chunksFuel n (l.drop MAX_STL_PER_ZIP)

/-- The chunk split of lines 618-621:
`[group_rows[i : i + MAX_STL_PER_ZIP] for i in range(0, num_parts, MAX_STL_PER_ZIP)]`. -/
def chunks (l : List Row) : List (List Row) := chunksFuel l.length l

/-- `material.replace(" ", "_")` (line 609). -/
def safeMaterial (m : String) : String :=
  String.mk (m.data.map (fun c => if c = ' ' then '_' else c))

/-- ZIP naming of lines 626-631: no suffix when the group produced a
single chunk, `_part<idx>` (1-based) otherwise. -/
def guiZipName (batch safeMat : String) (numChunks idx : Nat) : String :=
  if numChunks = 1 then batch ++ "_" ++ safeMat ++ ".zip"
  else batch ++ "_" ++ safeMat ++ "_part" ++ toString idx ++ ".zip"

/-- The member files a chunk contributes to its ZIP (lines 648-654): skip
a row whose stripped filename is empty, skip a file absent on disk,
otherwise write the file under its base name. `onDisk f` stands for
`os.path.exists(os.path.join(folder, f))` of the group's folder. -/
def guiMemberNames (onDisk : String → Bool) (c : List Row) : List String :=
  c.filterMap (fun r =>
    let f := pyStripWS (rowGet r "filename")
    if f == "" then none
    else if onDisk f then some (pyBasename f) else none)

/-- One produced GUI archive. -/
structure GArchive where
  name : String
  metaEntries : List (List Row)
  members : List String
  deriving DecidableEq, Repr

/-- The archives one group produces (lines 617-657): one ZIP per chunk,
each holding exactly one `meta.csv` entry carrying exactly that chunk's
rows, followed by the chunk's member files. -/
def run_conversion_package (batch material : String) (onDisk : String → Bool)
    (rows : List Row) : List GArchive :=
  let safeMat := safeMaterial material
  let cs := chunks rows
  cs.enum.map (fun p =>
    { name := guiZipName batch safeMat cs.length (p.1 + 1)
      metaEntries := [p.2]
      members := guiMemberNames onDisk p.2 })

/-- The action trace of one chunk: the `self.check_cancel()` of line 624,
opening the ZIP, writing the chunk-scoped `meta.csv` (line 647), then the
member files. No check occurs between individual file writes. -/
def guiChunkTrace (name : String) (onDisk : String → Bool) (c : List Row) :
    List PkgAct :=
  PkgAct.check :: PkgAct.openA name :: PkgAct.meta c ::
    ((guiMemberNames onDisk c).map PkgAct.file ++ [PkgAct.close])

/-- The action trace of packaging one group (lines 600-657): the group
level `self.check_cancel()` of line 601, then each chunk's trace. -/
def run_conversion_trace (batch material : String) (onDisk : String → Bool)
    (rows : List Row) : List PkgAct :=
  let safeMat := safeMaterial material
  let cs := chunks rows
  PkgAct.check ::
    (cs.enum.map (fun p =>
      guiChunkTrace (guiZipName batch safeMat cs.length (p.1 + 1)) onDisk p.2)).flatten

/-- Terminal status line of `run_conversion` (lines 678-692): success sets
one status, the `RuntimeError` handler (cancellation) another, the generic
handler a third. -/
def guiStatusText : Conv.RunEnd → String
  | Conv.RunEnd.ok => "All tasks completed successfully."
  | Conv.RunEnd.cancelled _ => "Cancelled by user."
  | Conv.RunEnd.failed _ => "Error occurred."

/-! ### `validate_and_fix_meta` (converter_gui_ctk.py lines 149-260)

The GUI validator walks the rows once, carrying the case-insensitive index
of the STL files on disk (a dict, mutated by renames), the accumulated
error list, the autofix counters, and the surviving rows. -/

/-- Python `dict.pop(k, None)` on the insertion-ordered association list. -/
def dictPop (m : List (String × String)) (k : String) : List (String × String) :=
  m.filter (fun p => !(p.1 == k))

/-- Validator state: `stl_files_on_disk`, `errors`, the five counters, the
on-disk renames performed, and `cleaned_rows`. -/
structure VState where
  disk : List (String × String)
  errors : List String
  fixedCopies : Nat
  fixedFilenames : Nat
  sanitizedFiles : Nat
  renamedFiles : Nat
  removedRows : Nat
  renames : List (String × String)
  cleaned : List Row
  deriving Repr

/-- One iteration of the validation loop (lines 188-235), on the 1-based
row number (starting at 2) and the row dict. A blank row is skipped; the
`copies` fix is applied; a missing `filename` appends one error and skips
the rest of the row (the `continue` of line 203); otherwise the extension
fix, sanitization, the disk rename, or the missing-file row drop follow.
No field other than `filename` is ever checked for being missing. -/
def vstep (st : VState) (p : Nat × Row) : VState :=
  let i := p.1
  let row := p.2
  if row.all (fun q => pyStripWS q.2 == "") then st
  else
    let copiesFixed :=
      pyStripWS (rowGet row "copies") == "" || pyStripWS (rowGet row "copies") == "0"
    let row1 := if copiesFixed then setKey row "copies" "1" else row
    let st1 := if copiesFixed then { st with fixedCopies := st.fixedCopies + 1 } else st
    let fname0 := pyStripWS (rowGet row1 "filename")
    if fname0 == "" then
      { st1 with errors := st1.errors ++ ["Row " ++ toString i ++ ": missing filename"] }
    else
      let extFixed := !(pyEndsWith (pyLower fname0) ".stl")
      let fname := if extFixed then fname0 ++ ".stl" else fname0
      let st2 := if extFixed then { st1 with fixedFilenames := st1.fixedFilenames + 1 } else st1
      let clean := sanitize_filename fname
      let st3 := if clean != fname then { st2 with sanitizedFiles := st2.sanitizedFiles + 1 } else st2
      match (st3.disk.lookup (pyLower fname)).orElse (fun _ => st3.disk.lookup (pyLower clean)) with
      | some orig =>
        let st4 :=
          if orig != clean then
            { st3 with renamedFiles := st3.renamedFiles + 1
                       renames := st3.renames ++ [(orig, clean)]
                       disk := setKey (dictPop st3.disk (pyLower orig)) (pyLower clean) clean }
          else st3
        { st4 with cleaned := st4.cleaned ++ [setKey row1 "filename" clean] }
      | none =>
        { st3 with removedRows := st3.removedRows + 1 }

/-- `validate_and_fix_meta` (lines 149-260), up to the point where the
cleaned CSV is written back: `none` for the header mismatch (the function
returns `False` before touching any row), otherwise the state after the
full pass. `diskFiles` is `os.listdir(stl_folder)`. -/
def validate_and_fix_meta (header : List String) (rawRows : List (List String))
    (diskFiles : List String) : Option VState :=
  if (header.take REQUIRED_COLUMNS.length).map normCell ≠ REQUIRED_COLUMNS then none
  else
    let disk0 := (diskFiles.filter (fun f => pyEndsWith (pyLower f) ".stl")).foldl
      (fun m f => setKey m (pyLower f) f) []
    let rows := rawRows.map (dictRow header)
    some ((rows.enumFrom 2).foldl vstep
      { disk := disk0, errors := [], fixedCopies := 0, fixedFilenames := 0,
        sanitizedFiles := 0, renamedFiles := 0, removedRows := 0,
        renames := [], cleaned := [] })

/-- The boolean `validate_and_fix_meta` returns: `False` on header
mismatch or when any error accumulated (lines 255-260). -/
def guiValidatePassed (header : List String) (rawRows : List (List String))
    (diskFiles : List String) : Bool :=
  match validate_and_fix_meta header rawRows diskFiles with
  | none => false
  | some st => st.errors.isEmpty

end Gui

/-- A fully-populated valid manifest row, used for concrete witnesses. -/
def demoRow : Row :=
  [("batch", "b1"), ("filename", "a.stl"), ("material", "m1"), ("part_id", "p1"),
   ("copies", "1"), ("next_step", "n1"), ("order_id", "o1"), ("technology", "t1")]

/-! ## Derived predicates used by the statements and invariants -/

/-- No two adjacent underscores. -/
def Gui.NoDupUnd (l : List Char) : Prop :=
  l.Chain' (fun a b => ¬(a = '_' ∧ b = '_'))

/-- A row the Group Planner hands to the Archive Packager: nonempty
stripped filename (rows with empty filenames are filtered at lines
549-553) whose file exists in the group's folder (lines 554-558). -/
def Gui.ValidRow (onDisk : String → Bool) (r : Row) : Prop :=
  pyStripWS (rowGet r "filename") ≠ "" ∧ onDisk (pyStripWS (rowGet r "filename")) = true

/-- Invariant carried through the `zip_with_limit` loop: the 1-based index
is one past the closed archives; closed archives are named `_part1`,
`_part2`, … in order; no closed archive holds a metadata entry; every
closed archive respects the byte cap unless it is a singleton; and the
running size is the payload of the open archive, itself within the cap
unless a singleton. -/
def Conv.ZInv (base : String) (st : Conv.ZState) : Prop :=
  st.idx = st.closed.length + 1 ∧
  st.closed.map Conv.Archive.name =
    (List.range st.closed.length).map (fun j => Conv.zipName base (j + 1)) ∧
  (∀ a ∈ st.closed, a.metaEntries = []) ∧
  (∀ a ∈ st.closed, a.payload ≤ Conv.MAX_ZIP_SIZE_BYTES ∨ a.files.length = 1) ∧
  st.size = Conv.payloadOf st.cur ∧
  (st.size ≤ Conv.MAX_ZIP_SIZE_BYTES ∨ st.cur.length = 1)

/-! ## Lemmas: `dropWhile`, `dropEnds` and character classes -/

lemma head?_dropWhile_false (p : Char → Bool) (l : List Char) {c : Char}
    (h : (l.dropWhile p).head? = some c) : p c = false := by
  induction l with
  | nil => simp [List.dropWhile] at h
  | cons a t ih =>
    rw [List.dropWhile_cons] at h
    by_cases hp : p a
    · rw [if_pos hp] at h
      exact ih h
    · rw [if_neg hp] at h
      simp only [List.head?_cons, Option.some.injEq] at h
      subst h
      exact Bool.not_eq_true _ ▸ (by simpa using hp)

lemma dropWhile_eq_self_of_head (p : Char → Bool) (l : List Char)
    (h : ∀ c, l.head? = some c → p c = false) : l.dropWhile p = l := by
  cases l with
  | nil => rfl
  | cons a t =>
    rw [List.dropWhile_cons, h a rfl]
    simp

lemma getLast?_of_suffix {l m : List Char} (h : m <:+ l) (hm : m ≠ []) :
    m.getLast? = l.getLast? := by
  obtain ⟨t, rfl⟩ := h
  exact (List.getLast?_append_of_ne_nil t hm).symm

lemma dropEnds_getLast (p : Char → Bool) (l : List Char) {c : Char}
    (h : (dropEnds p l).getLast? = some c) : p c = false := by
  unfold dropEnds at h
  rw [List.getLast?_reverse] at h
  exact head?_dropWhile_false p _ h

lemma dropEnds_head (p : Char → Bool) (l : List Char) {c : Char}
    (h : (dropEnds p l).head? = some c) : p c = false := by
  unfold dropEnds at h
  rw [List.head?_reverse] at h
  have hne : ((l.dropWhile p).reverse.dropWhile p) ≠ [] := by
    intro hnil
    rw [hnil] at h
    simp at h
  rw [getLast?_of_suffix (List.dropWhile_suffix p) hne, List.getLast?_reverse] at h
  exact head?_dropWhile_false p _ h

lemma dropEnds_eq_self (p : Char → Bool) (l : List Char)
    (hh : ∀ c, l.head? = some c → p c = false)
    (hl : ∀ c, l.getLast? = some c → p c = false) : dropEnds p l = l := by
  unfold dropEnds
  rw [dropWhile_eq_self_of_head p l hh,
      dropWhile_eq_self_of_head p l.reverse
        (fun c hc => hl c (by rwa [List.head?_reverse] at hc)),
      List.reverse_reverse]

lemma dropEnds_idem (p : Char → Bool) (l : List Char) :
    dropEnds p (dropEnds p l) = dropEnds p l :=
  dropEnds_eq_self p _ (fun _ hc => dropEnds_head p l hc)
    (fun _ hc => dropEnds_getLast p l hc)

lemma mem_dropEnds {x : Char} {p : Char → Bool} {l : List Char}
    (h : x ∈ dropEnds p l) : x ∈ l := by
  unfold dropEnds at h
  rw [List.mem_reverse] at h
  have h1 : x ∈ (l.dropWhile p).reverse := (List.dropWhile_suffix p).subset h
  rw [List.mem_reverse] at h1
  exact (List.dropWhile_suffix p).subset h1

/-! ## Lemmas: sanitization (claim C9) -/

namespace Gui

lemma noDupUnd_reverse {l : List Char} (h : NoDupUnd l) : NoDupUnd l.reverse := by
  rw [NoDupUnd, List.chain'_reverse]
  exact h.imp (fun a b hab => by tauto)

lemma noDupUnd_dropWhile (p : Char → Bool) {l : List Char} (h : NoDupUnd l) :
    NoDupUnd (l.dropWhile p) :=
  List.Chain'.suffix h (List.dropWhile_suffix p)

lemma noDupUnd_dropEnds (p : Char → Bool) {l : List Char} (h : NoDupUnd l) :
    NoDupUnd (dropEnds p l) :=
  noDupUnd_reverse (noDupUnd_dropWhile p (noDupUnd_reverse (noDupUnd_dropWhile p h)))

lemma collapseUnd_head (b : Char) (r : List Char) :
    (collapseUnd (b :: r)).head? = some b := by
  induction r generalizing b with
  | nil => rfl
  | cons c r ih =>
    by_cases h : b = '_' ∧ c = '_'
    · obtain ⟨hb, hc⟩ := h
      subst hb
      subst hc
      rw [collapseUnd, if_pos (by decide)]
      exact ih '_'
    · have hcond : (b == '_' && c == '_') = false := by
        by_cases hb : b = '_'
        · by_cases hc : c = '_'
          · exact absurd ⟨hb, hc⟩ h
          · simp [hc]
        · simp [hb]
      rw [collapseUnd, if_neg (by simp [hcond])]
      rfl

lemma collapseUnd_chain (l : List Char) : NoDupUnd (collapseUnd l) := by
  induction l with
  | nil => simp [collapseUnd, NoDupUnd]
  | cons a t ih =>
    cases t with
    | nil => simp [collapseUnd, NoDupUnd]
    | cons b r =>
      by_cases h : a = '_' ∧ b = '_'
      · obtain ⟨ha, hb⟩ := h
        subst ha
        subst hb
        rw [collapseUnd, if_pos (by decide)]
        exact ih
      · have hcond : ¬(a == '_' && b == '_') = true := by
          simp only [Bool.and_eq_true, beq_iff_eq]
          exact h
        rw [collapseUnd, if_neg hcond, NoDupUnd, List.chain'_cons']
        refine ⟨?_, ih⟩
        intro y hy
        rw [collapseUnd_head] at hy
        cases hy
        exact h

lemma collapseUnd_eq_self {l : List Char} (h : NoDupUnd l) : collapseUnd l = l := by
  induction l with
  | nil => rfl
  | cons a t ih =>
    cases t with
    | nil => rfl
    | cons b r =>
      rw [NoDupUnd, List.chain'_cons] at h
      have hcond : ¬(a == '_' && b == '_') = true := by
        simp only [Bool.and_eq_true, beq_iff_eq]
        exact h.1
      rw [collapseUnd, if_neg hcond, ih h.2]

lemma mem_collapseUnd {x : Char} {l : List Char} (h : x ∈ collapseUnd l) : x ∈ l := by
  induction l with
  | nil => exact h
  | cons a t ih =>
    cases t with
    | nil => exact h
    | cons b r =>
      by_cases hc : (a == '_' && b == '_') = true
      · rw [collapseUnd, if_pos hc] at h
        exact List.mem_cons_of_mem a (ih h)
      · rw [collapseUnd, if_neg hc] at h
        rcases List.mem_cons.mp h with h1 | h1
        · exact h1 ▸ List.mem_cons_self a _
        · exact List.mem_cons_of_mem a (ih h1)

lemma allowedChar_replChar (c : Char) : allowedChar (replChar c) = true := by
  unfold replChar
  by_cases h : allowedChar c = true
  · rwa [if_pos h]
  · rw [if_neg h]
    decide

lemma map_replChar_eq_self {l : List Char} (h : ∀ c ∈ l, allowedChar c = true) :
    l.map replChar = l := by
  induction l with
  | nil => rfl
  | cons a t ih =>
    have ha : replChar a = a := by
      unfold replChar
      rw [if_pos (h a (List.mem_cons_self a t))]
    rw [List.map_cons, ha, ih (fun c hc => h c (List.mem_cons_of_mem a hc))]

end Gui

/-- Claim C9 (confirmed): filename sanitization — replace characters
outside the alphanumeric/underscore/dot allow-list with underscore,
collapse repeated underscores, strip leading/trailing underscores and
spaces — is idempotent: for every input string, applying
`sanitize_filename` to its own output yields that output unchanged. -/
theorem C9_sanitize_idempotent (s : String) :
    Gui.sanitize_filename (Gui.sanitize_filename s) = Gui.sanitize_filename s := by
  show String.mk (dropEnds Gui.stripUndSp (Gui.collapseUnd
      ((dropEnds Gui.stripUndSp
        (Gui.collapseUnd (s.data.map Gui.replChar))).map Gui.replChar))) =
    String.mk (dropEnds Gui.stripUndSp (Gui.collapseUnd (s.data.map Gui.replChar)))
  set z := dropEnds Gui.stripUndSp (Gui.collapseUnd (s.data.map Gui.replChar)) with hz
  have hall : ∀ c ∈ z, Gui.allowedChar c = true := by
    intro c hc
    have h1 : c ∈ s.data.map Gui.replChar := Gui.mem_collapseUnd (mem_dropEnds hc)
    obtain ⟨d, _, hd⟩ := List.mem_map.mp h1
    rw [← hd]
    exact Gui.allowedChar_replChar d
  have hmap : z.map Gui.replChar = z := Gui.map_replChar_eq_self hall
  have hnd : Gui.NoDupUnd z := Gui.noDupUnd_dropEnds _ (Gui.collapseUnd_chain _)
  have hcol : Gui.collapseUnd z = z := Gui.collapseUnd_eq_self hnd
  rw [hmap, hcol, hz, dropEnds_idem]

/-! ## Lemmas: byte-capped packaging (`zip_with_limit`) -/

namespace Conv

lemma zip_with_limit_archives (base : String) (files : List BFile)
    (meta : Option (List Row)) :
    (zip_with_limit base files meta).archives =
      (files.foldl (zstep base) (zinit base)).closed ++
        [{ name := zipName base (files.foldl (zstep base) (zinit base)).idx
           metaEntries := (match meta with | some m => [m] | none => [])
           files := (files.foldl (zstep base) (zinit base)).cur }] := rfl

lemma meta_match_toList (meta : Option (List Row)) :
    (match meta with | some m => [m] | none => ([] : List (List Row))) = meta.toList := by
  cases meta <;> rfl

lemma zinv_init (base : String) : ZInv base (zinit base) := by
  refine ⟨rfl, rfl, ?_, ?_, rfl, Or.inl (Nat.zero_le _)⟩ <;>
    intro a ha <;> simp [zinit] at ha

lemma zinv_step (base : String) (st : ZState) (f : BFile) (h : ZInv base st) :
    ZInv base (zstep base st f) := by
  obtain ⟨hidx, hnames, hmeta, hpay, hsize, hcur⟩ := h
  unfold zstep
  by_cases hd : f.onDisk
  · rw [if_neg (by simp [hd])]
    by_cases ho : MAX_ZIP_SIZE_BYTES < st.size + f.size
    · rw [if_pos ho]
      refine ⟨?_, ?_, ?_, ?_, ?_, Or.inr rfl⟩
      · simp [hidx]
      · simp only [List.map_append, List.length_append, List.map_cons, List.map_nil,
          List.length_cons, List.length_nil]
        rw [hnames, hidx]
        have : st.closed.length + (0 + 1) = st.closed.length + 1 := by omega
        rw [this, List.range_succ]
        simp
      · intro a ha
        rcases List.mem_append.mp ha with h1 | h1
        · exact hmeta a h1
        · rw [List.mem_singleton] at h1
          subst h1
          rfl
      · intro a ha
        rcases List.mem_append.mp ha with h1 | h1
        · exact hpay a h1
        · rw [List.mem_singleton] at h1
          subst h1
          rcases hcur with h2 | h2
          · refine Or.inl ?_
            show payloadOf st.cur ≤ MAX_ZIP_SIZE_BYTES
            rw [← hsize]
            exact h2
          · exact Or.inr h2
      · simp [payloadOf]
    · rw [if_neg ho]
      refine ⟨hidx, hnames, hmeta, hpay, ?_, Or.inl (Nat.le_of_not_lt ho)⟩
      simp [payloadOf, hsize, List.map_append]
  · rw [if_pos (by simp [hd])]
    exact ⟨hidx, hnames, hmeta, hpay, hsize, hcur⟩

lemma zinv_fold (base : String) (files : List BFile) (st : ZState) (h : ZInv base st) :
    ZInv base (files.foldl (zstep base) st) := by
  induction files generalizing st with
  | nil => exact h
  | cons f fs ih => exact ih _ (zinv_step base st f h)

lemma zinv_run (base : String) (files : List BFile) :
    ZInv base (files.foldl (zstep base) (zinit base)) :=
  zinv_fold base files _ (zinv_init base)

end Conv

/-- Claim C4 (confirmed): in byte-capped packaging, for every input file
list and file-size assignment, any archive whose member-file payload
(metadata entry excluded) exceeds the 900 MiB budget holds exactly one
member file — that single file alone exceeds the budget and sits in an
archive by itself. -/
theorem C4_payload_bound (base : String) (files : List Conv.BFile)
    (meta : Option (List Row)) (a : Conv.Archive)
    (ha : a ∈ (Conv.zip_with_limit base files meta).archives)
    (hover : Conv.MAX_ZIP_SIZE_BYTES < a.payload) : a.files.length = 1 := by
  obtain ⟨hidx, hnames, hmeta, hpay, hsize, hcur⟩ := Conv.zinv_run base files
  rw [Conv.zip_with_limit_archives] at ha
  rcases List.mem_append.mp ha with h1 | h1
  · rcases hpay a h1 with h2 | h2
    · exact absurd hover (Nat.not_lt.mpr h2)
    · exact h2
  · rw [List.mem_singleton] at h1
    subst h1
    rcases hcur with h2 | h2
    · refine absurd hover (Nat.not_lt.mpr ?_)
      show Conv.payloadOf (List.foldl (Conv.zstep base) (Conv.zinit base) files).cur ≤
        Conv.MAX_ZIP_SIZE_BYTES
      rw [← hsize]
      exact h2
    · simpa using h2

/-- Witness for C4: a single file one byte over the budget lands alone in
the second archive (`zip_with_limit` closes the then-empty first archive
and packs the oversized file by itself). -/
theorem C4_payload_bound_witness :
    Conv.MAX_ZIP_SIZE_BYTES <
      (Conv.Archive.mk "b_part2.zip" []
        [Conv.BFile.mk "f" (Conv.MAX_ZIP_SIZE_BYTES + 1) true]).payload ∧
    (Conv.Archive.mk "b_part2.zip" []
        [Conv.BFile.mk "f" (Conv.MAX_ZIP_SIZE_BYTES + 1) true]).files.length = 1 :=
  ⟨by decide,
   C4_payload_bound "b" [Conv.BFile.mk "f" (Conv.MAX_ZIP_SIZE_BYTES + 1) true] none _
     (by decide) (by decide)⟩

/-! ## Lemmas: count-capped chunking and GUI packaging -/

namespace Gui

lemma chunks_nil : chunks [] = [] := rfl

lemma chunksFuel_nil (n : Nat) : chunksFuel n [] = [] := by
  cases n <;> rfl

lemma chunksFuel_eq : ∀ n, ∀ m (l : List Row), l.length ≤ n → l.length ≤ m →
    chunksFuel n l = chunksFuel m l := by
  intro n
  induction n with
  | zero =>
    intro m l hn _
    rw [List.eq_nil_of_length_eq_zero (Nat.le_zero.mp hn), chunksFuel_nil, chunksFuel_nil]
  | succ n ih =>
    intro m l hn hm
    cases l with
    | nil => rw [chunksFuel_nil, chunksFuel_nil]
    | cons a t =>
      cases m with
      | zero => simp at hm
      | succ m =>
        show (a :: t).take MAX_STL_PER_ZIP ::
            chunksFuel n ((a :: t).drop MAX_STL_PER_ZIP) =
          (a :: t).take MAX_STL_PER_ZIP ::
            chunksFuel m ((a :: t).drop MAX_STL_PER_ZIP)
        congr 1
        have hlen : ((a :: t).drop MAX_STL_PER_ZIP).length ≤ t.length := by
          simp only [List.length_drop, List.length_cons, MAX_STL_PER_ZIP]
          omega
        exact ih m _ (by simp only [List.length_cons] at hn; omega)
          (by simp only [List.length_cons] at hm; omega)

lemma chunks_cons (l : List Row) (h : l ≠ []) :
    chunks l = l.take MAX_STL_PER_ZIP :: chunks (l.drop MAX_STL_PER_ZIP) := by
  cases l with
  | nil => exact absurd rfl h
  | cons a t =>
    show (a :: t).take MAX_STL_PER_ZIP ::
        chunksFuel t.length ((a :: t).drop MAX_STL_PER_ZIP) = _
    congr 1
    exact chunksFuel_eq t.length _ _
      (by simp only [List.length_drop, List.length_cons, MAX_STL_PER_ZIP]; omega) le_rfl

lemma chunks_flatten_bounded : ∀ n (l : List Row), l.length ≤ n → (chunks l).flatten = l := by
  intro n
  induction n with
  | zero =>
    intro l hl
    rw [List.eq_nil_of_length_eq_zero (Nat.le_zero.mp hl), chunks_nil]
    rfl
  | succ n ih =>
    intro l hl
    cases l with
    | nil => rw [chunks_nil]; rfl
    | cons a t =>
      rw [chunks_cons _ (List.cons_ne_nil a t), List.flatten_cons,
          ih ((a :: t).drop MAX_STL_PER_ZIP)
            (by simp only [List.length_drop, List.length_cons, MAX_STL_PER_ZIP] at *; omega),
          List.take_append_drop]

lemma chunks_flatten (l : List Row) : (chunks l).flatten = l :=
  chunks_flatten_bounded l.length l le_rfl

lemma length_le_of_mem_chunks : ∀ n (l : List Row), l.length ≤ n →
    ∀ c ∈ chunks l, c.length ≤ MAX_STL_PER_ZIP := by
  intro n
  induction n with
  | zero =>
    intro l hl c hc
    rw [List.eq_nil_of_length_eq_zero (Nat.le_zero.mp hl), chunks_nil] at hc
    simp at hc
  | succ n ih =>
    intro l hl c hc
    cases l with
    | nil =>
      rw [chunks_nil] at hc
      simp at hc
    | cons a t =>
      rw [chunks_cons _ (List.cons_ne_nil a t)] at hc
      rcases List.mem_cons.mp hc with h1 | h1
      · subst h1
        exact (List.length_take_le _ _)
      · exact ih ((a :: t).drop MAX_STL_PER_ZIP)
          (by simp only [List.length_drop, List.length_cons, MAX_STL_PER_ZIP] at *; omega) c h1

lemma subset_of_mem_chunks {c l : List Row} (hc : c ∈ chunks l) : ∀ x ∈ c, x ∈ l := by
  intro x hx
  rw [← chunks_flatten l]
  exact List.mem_flatten.mpr ⟨c, hc, hx⟩

lemma chunks_map_length_250 {l : List Row} (h : l.length = 250) :
    (chunks l).map List.length = [100, 100, 50] := by
  have h1 : l ≠ [] := by
    intro hx
    rw [hx] at h
    simp at h
  have hd1 : (l.drop MAX_STL_PER_ZIP).length = 150 := by
    simp [List.length_drop, h, MAX_STL_PER_ZIP]
  have h2 : l.drop MAX_STL_PER_ZIP ≠ [] := by
    intro hx
    rw [hx] at hd1
    simp at hd1
  have hd2 : ((l.drop MAX_STL_PER_ZIP).drop MAX_STL_PER_ZIP).length = 50 := by
    simp only [List.length_drop, MAX_STL_PER_ZIP, h]
  have h3 : (l.drop MAX_STL_PER_ZIP).drop MAX_STL_PER_ZIP ≠ [] := by
    intro hx
    rw [hx] at hd2
    simp at hd2
  have hd3 : (((l.drop MAX_STL_PER_ZIP).drop MAX_STL_PER_ZIP).drop MAX_STL_PER_ZIP).length = 0 := by
    simp only [List.length_drop, MAX_STL_PER_ZIP, h]
  rw [chunks_cons l h1, chunks_cons _ h2, chunks_cons _ h3,
      List.eq_nil_of_length_eq_zero hd3, chunks_nil]
  simp [List.length_take, h, hd1, hd2, MAX_STL_PER_ZIP]

lemma guiMemberNames_eq_map {onDisk : String → Bool} {c : List Row}
    (h : ∀ r ∈ c, ValidRow onDisk r) :
    guiMemberNames onDisk c = c.map (fun r => pyBasename (pyStripWS (rowGet r "filename"))) := by
  induction c with
  | nil => rfl
  | cons r t ih =>
    obtain ⟨hne, hdisk⟩ := h r (List.mem_cons_self r t)
    have hbeq : (pyStripWS (rowGet r "filename") == "") = false := by
      rw [beq_eq_false_iff_ne]
      exact hne
    unfold guiMemberNames
    rw [List.filterMap_cons]
    simp only [hbeq, hdisk, Bool.false_eq_true, if_false, if_true]
    rw [List.map_cons]
    congr 1
    exact ih (fun x hx => h x (List.mem_cons_of_mem r hx))

lemma run_conversion_package_map {batch material : String} {onDisk : String → Bool}
    {rows : List Row} {β : Type} (g : GArchive → β)
    (g2 : List Row → β)
    (hg : ∀ p : Nat × List Row, g
      { name := guiZipName batch (safeMaterial material) (chunks rows).length (p.1 + 1)
        metaEntries := [p.2]
        members := guiMemberNames onDisk p.2 } = g2 p.2) :
    (run_conversion_package batch material onDisk rows).map g = (chunks rows).map g2 := by
  unfold run_conversion_package
  rw [List.map_map]
  have : (g ∘ fun p : Nat × List Row =>
      ({ name := guiZipName batch (safeMaterial material) (chunks rows).length (p.1 + 1)
         metaEntries := [p.2]
         members := guiMemberNames onDisk p.2 } : GArchive)) = fun p => g2 p.2 := by
    funext p
    exact hg p
  rw [this]
  have h2 : (fun p : Nat × List Row => g2 p.2) = g2 ∘ Prod.snd := rfl
  rw [h2, ← List.map_map, List.enum_map_snd]

lemma mem_run_conversion_package {batch material : String} {onDisk : String → Bool}
    {rows : List Row} {a : GArchive}
    (ha : a ∈ run_conversion_package batch material onDisk rows) :
    ∃ c ∈ chunks rows, a.metaEntries = [c] ∧ a.members = guiMemberNames onDisk c := by
  unfold run_conversion_package at ha
  obtain ⟨p, hp, rfl⟩ := List.mem_map.mp ha
  have hc : p.2 ∈ chunks rows := by
    have h2 : p.2 ∈ (chunks rows).enum.map Prod.snd := List.mem_map_of_mem Prod.snd hp
    rwa [List.enum_map_snd] at h2
  exact ⟨p.2, hc, rfl, rfl⟩

end Gui

/-- Claim C5 (confirmed): count-capped packaging with cap `K = 100` — no
archive holds more than 100 member files, the records are split into
consecutive chunks in manifest order (the chunks concatenate back to the
group, in order), and a group of 250 valid records yields exactly 3
archives with 100, 100 and 50 members respectively, each carrying its own
100/100/50-row metadata subset. -/
theorem C5_count_capped (batch material : String) (onDisk : String → Bool)
    (rows : List Row) :
    (∀ a ∈ Gui.run_conversion_package batch material onDisk rows,
        a.members.length ≤ Gui.MAX_STL_PER_ZIP)
    ∧ (Gui.chunks rows).flatten = rows
    ∧ ((∀ r ∈ rows, Gui.ValidRow onDisk r) → rows.length = 250 →
        (Gui.run_conversion_package batch material onDisk rows).length = 3
        ∧ (Gui.run_conversion_package batch material onDisk rows).map
            (fun a => a.members.length) = [100, 100, 50]
        ∧ (Gui.run_conversion_package batch material onDisk rows).map
            (fun a => a.metaEntries.map List.length) = [[100], [100], [50]]) := by
  refine ⟨?_, Gui.chunks_flatten rows, ?_⟩
  · intro a ha
    obtain ⟨c, hc, _, hmem⟩ := Gui.mem_run_conversion_package ha
    have hlen : c.length ≤ Gui.MAX_STL_PER_ZIP :=
      Gui.length_le_of_mem_chunks rows.length rows le_rfl c hc
    rw [hmem]
    exact le_trans (List.length_filterMap_le _ _) hlen
  · intro hv h250
    have hmemlen : (Gui.run_conversion_package batch material onDisk rows).map
        (fun a => a.members.length) = [100, 100, 50] := by
      rw [Gui.run_conversion_package_map (fun a => a.members.length)
          (fun c => (Gui.guiMemberNames onDisk c).length) (fun p => rfl)]
      rw [List.map_congr_left (fun c hc => by
        rw [Gui.guiMemberNames_eq_map
          (fun r hr => hv r (Gui.subset_of_mem_chunks hc r hr)), List.length_map])]
      exact Gui.chunks_map_length_250 h250
    refine ⟨?_, hmemlen, ?_⟩
    · have h3 : ((Gui.run_conversion_package batch material onDisk rows).map
          (fun a => a.members.length)).length = 3 := by
        rw [hmemlen]
        rfl
      rwa [List.length_map] at h3
    · rw [Gui.run_conversion_package_map (fun a => a.metaEntries.map List.length)
          (fun c => [c.length]) (fun p => rfl)]
      have h4 : (Gui.chunks rows).map (fun c => [c.length]) =
          ((Gui.chunks rows).map List.length).map (fun n => [n]) := by
        rw [List.map_map]
        rfl
      rw [h4, Gui.chunks_map_length_250 h250]
      rfl

/-- Witness for C5: 250 copies of a valid row, packaged with every file on
disk, give 3 archives of 100, 100 and 50 members. -/
theorem C5_count_capped_witness :
    (Gui.run_conversion_package "b" "m" (fun _ => true) (List.replicate 250 demoRow)).length = 3
    ∧ (Gui.run_conversion_package "b" "m" (fun _ => true) (List.replicate 250 demoRow)).map
        (fun a => a.members.length) = [100, 100, 50] := by
  have h := (C5_count_capped "b" "m" (fun _ => true) (List.replicate 250 demoRow)).2.2
    (by
      intro r hr
      rw [List.eq_of_mem_replicate hr]
      exact ⟨by decide, rfl⟩)
    (List.length_replicate 250 demoRow)
  exact ⟨h.1, h.2.1⟩

/-- Claim C1 counterexample: in the byte-capped mode, a group of two
600 MiB files produces two archives, and the first archive carries no
metadata entry at all — `zip_with_limit` writes `meta.csv` only into the
final archive (converter.py lines 236-237), so it is false that every
archive contains exactly one metadata entry scoped to its members. -/
theorem C1_counterexample :
    ((Conv.zip_with_limit "b"
        [Conv.BFile.mk "a" (600 * 1024 * 1024) true,
         Conv.BFile.mk "c" (600 * 1024 * 1024) true] (some [demoRow])).archives.map
      (fun a => a.metaEntries.length) = [0, 1]) ∧
    (Conv.zip_with_limit "b"
        [Conv.BFile.mk "a" (600 * 1024 * 1024) true,
         Conv.BFile.mk "c" (600 * 1024 * 1024) true] (some [demoRow])).archives.length = 2 := by
  constructor <;> decide

/-- Claim C1 (amended): in count-capped (GUI) packaging every archive
contains exactly one metadata entry listing exactly the records whose
member files are in that archive; in byte-capped (converter.py) packaging
no archive except the last contains a metadata entry, and the last archive
carries the full manifest passed in, not a subset scoped to its members. -/
theorem C1_amended :
    (∀ batch material onDisk rows, (∀ r ∈ rows, Gui.ValidRow onDisk r) →
      ∀ a ∈ Gui.run_conversion_package batch material onDisk rows,
        a.metaEntries.length = 1 ∧
        a.members = (a.metaEntries.headD []).map
          (fun r => pyBasename (pyStripWS (rowGet r "filename"))))
    ∧ (∀ base files meta,
        (∀ a ∈ (Conv.zip_with_limit base files meta).archives.dropLast,
          a.metaEntries = []) ∧
        (Conv.zip_with_limit base files meta).archives.getLast?.map Conv.Archive.metaEntries
          = some meta.toList) := by
  constructor
  · intro batch material onDisk rows hv a ha
    obtain ⟨c, hc, hm, hmem⟩ := Gui.mem_run_conversion_package ha
    have hvc : ∀ r ∈ c, Gui.ValidRow onDisk r :=
      fun r hr => hv r (Gui.subset_of_mem_chunks hc r hr)
    refine ⟨by rw [hm]; rfl, ?_⟩
    rw [hmem, hm]
    show Gui.guiMemberNames onDisk c = ([c].headD []).map _
    rw [List.headD_cons]
    exact Gui.guiMemberNames_eq_map hvc
  · intro base files meta
    obtain ⟨hidx, hnames, hmeta, hpay, hsize, hcur⟩ := Conv.zinv_run base files
    constructor
    · intro a ha
      rw [Conv.zip_with_limit_archives, List.dropLast_concat] at ha
      exact hmeta a ha
    · rw [Conv.zip_with_limit_archives, List.getLast?_concat]
      exact congrArg some (Conv.meta_match_toList meta)

/-- Witness for C1 (amended): a one-row group packaged by the GUI yields a
single archive whose lone metadata entry lists exactly its one member; an
empty byte-capped run still ends with the metadata in its last archive. -/
theorem C1_amended_witness :
    ((Gui.GArchive.mk "b_m.zip" [[demoRow]] ["a.stl"]).metaEntries.length = 1 ∧
      (Gui.GArchive.mk "b_m.zip" [[demoRow]] ["a.stl"]).members =
        ((Gui.GArchive.mk "b_m.zip" [[demoRow]] ["a.stl"]).metaEntries.headD []).map
          (fun r => pyBasename (pyStripWS (rowGet r "filename")))) ∧
    (Conv.zip_with_limit "x" [] none).archives.getLast?.map Conv.Archive.metaEntries =
      some [] :=
  ⟨C1_amended.1 "b" "m" (fun _ => true) [demoRow]
      (by
        intro r hr
        rw [List.mem_singleton] at hr
        rw [hr]
        exact ⟨by decide, rfl⟩)
      _ (by decide),
   (C1_amended.2 "x" [] none).2⟩

/-- Claim C2 counterexample: a byte-capped group whose single small file
fits in one archive still yields an archive named with a `_part1` suffix —
`new_zip` (converter.py line 196) always appends `_part<N>`, so it is
false that a single-archive group is named without a part suffix. -/
theorem C2_counterexample :
    (Conv.zip_with_limit "b" [Conv.BFile.mk "a.stl" 5 true] (some [demoRow])).archives.map
        Conv.Archive.name = ["b_part1.zip"] ∧
    (Conv.zip_with_limit "b" [Conv.BFile.mk "a.stl" 5 true]
        (some [demoRow])).archives.length = 1 := by
  constructor <;> decide

/-- Claim C2 (amended): in GUI count-capped packaging the `_part<N>`
suffix appears iff the group produced more than one archive (a single
chunk is named `<batch>_<material>.zip`, several chunks are named with
1-based `_part<N>`); in byte-capped packaging every archive carries a
1-based `_part<N>` suffix, even when the group fits in one archive. -/
theorem C2_amended :
    (∀ base files meta,
      (Conv.zip_with_limit base files meta).archives.map Conv.Archive.name =
        (List.range (Conv.zip_with_limit base files meta).archives.length).map
          (fun j => base ++ "_part" ++ toString (j + 1) ++ ".zip"))
    ∧ (∀ batch material onDisk rows,
        ((Gui.chunks rows).length = 1 →
          (Gui.run_conversion_package batch material onDisk rows).map Gui.GArchive.name =
            [batch ++ "_" ++ Gui.safeMaterial material ++ ".zip"])
        ∧ (1 < (Gui.chunks rows).length →
            ∀ i (h : i < (Gui.run_conversion_package batch material onDisk rows).length),
              ((Gui.run_conversion_package batch material onDisk rows).get ⟨i, h⟩).name =
                batch ++ "_" ++ Gui.safeMaterial material ++ "_part" ++
                  toString (i + 1) ++ ".zip")) := by
  constructor
  · intro base files meta
    obtain ⟨hidx, hnames, hmeta, hpay, hsize, hcur⟩ := Conv.zinv_run base files
    rw [Conv.zip_with_limit_archives, List.map_append, hnames, List.length_append]
    simp only [List.map_cons, List.map_nil, List.length_cons, List.length_nil, Nat.zero_add]
    rw [hidx, List.range_succ, List.map_append]
    rfl
  · intro batch material onDisk rows
    constructor
    · intro h1
      obtain ⟨c, hc⟩ := List.length_eq_one.mp h1
      unfold Gui.run_conversion_package
      rw [hc]
      simp [List.enum, List.enumFrom, Gui.guiZipName]
    · intro h1 i h
      rw [List.get_eq_getElem]
      simp only [Gui.run_conversion_package, List.getElem_map, List.getElem_enum]
      unfold Gui.guiZipName
      rw [if_neg (by omega)]

/-- Witness for C2 (amended): a one-chunk GUI group gets no part suffix,
while an empty byte-capped run still names its lone archive `_part1`. -/
theorem C2_amended_witness :
    (Gui.run_conversion_package "b" "m" (fun _ => true) [demoRow]).map Gui.GArchive.name =
      ["b_m.zip"] ∧
    (Conv.zip_with_limit "x" [] none).archives.map Conv.Archive.name = ["x_part1.zip"] := by
  constructor
  · have h := (C2_amended.2 "b" "m" (fun _ => true) [demoRow]).1 (by decide)
    rw [h]
    decide
  · have h := C2_amended.1 "x" [] none
    rw [h]
    decide

/-! ## Lemmas: cancellation placement in the packaging traces -/

lemma archGuarded_check (r : List PkgAct) (a : Bool) :
    archGuarded (PkgAct.check :: r) a = archGuarded r true := rfl

lemma archGuarded_open (n : String) (r : List PkgAct) (a : Bool) :
    archGuarded (PkgAct.openA n :: r) a = (a && archGuarded r false) := rfl

lemma archGuarded_meta (c : List Row) (r : List PkgAct) (a : Bool) :
    archGuarded (PkgAct.meta c :: r) a = archGuarded r a := rfl

lemma archGuarded_close (r : List PkgAct) (a : Bool) :
    archGuarded (PkgAct.close :: r) a = archGuarded r a := rfl

lemma archGuarded_neutral (fs : List String) (rest : List PkgAct) (a : Bool) :
    archGuarded (fs.map PkgAct.file ++ rest) a = archGuarded rest a := by
  induction fs with
  | nil => rfl
  | cons x t ih => exact ih

lemma archGuarded_chunkTrace (name : String) (onDisk : String → Bool) (c : List Row)
    (rest : List PkgAct) (a : Bool) :
    archGuarded (Gui.guiChunkTrace name onDisk c ++ rest) a = archGuarded rest false := by
  show archGuarded (PkgAct.check :: PkgAct.openA name :: PkgAct.meta c ::
      (((Gui.guiMemberNames onDisk c).map PkgAct.file ++ [PkgAct.close]) ++ rest)) a =
    archGuarded rest false
  rw [archGuarded_check, archGuarded_open, Bool.true_and, archGuarded_meta,
      List.append_assoc, archGuarded_neutral, List.singleton_append, archGuarded_close]

lemma archGuarded_chunkTraces (segs : List (Nat × List Row))
    (mk : Nat × List Row → String) (onDisk : String → Bool) (a : Bool) :
    archGuarded ((segs.map (fun p => Gui.guiChunkTrace (mk p) onDisk p.2)).flatten) a
      = true := by
  induction segs generalizing a with
  | nil => rfl
  | cons p t ih =>
    rw [List.map_cons, List.flatten_cons, archGuarded_chunkTrace]
    exact ih false

/-- Claim C6 counterexample: in the GUI packager a single 2-row chunk
produces the trace check-check-open-meta-file-file-close — the token is
not checked between the two file writes (`fileGuarded` fails), and a token
set just after the two checks (index 2, before any file is written) stops
nothing: both member files are still written and the run does not report
cancellation. The converter.py loop has no check at all between writes. -/
theorem C6_counterexample :
    fileGuarded (Gui.run_conversion_trace "b" "m" (fun _ => true) [demoRow, demoRow]) false
      = false
    ∧ runPkg 2 (Gui.run_conversion_trace "b" "m" (fun _ => true) [demoRow, demoRow]) =
        (["a.stl", "a.stl"], false)
    ∧ fileGuarded (Conv.conv_folder_trace "b"
        [Conv.BFile.mk "c" 5 true, Conv.BFile.mk "d" 5 true] (some [demoRow])) false
      = false := by
  refine ⟨by decide, by decide, by decide⟩

/-- Claim C6 (amended): cancellation is checked before each group and
before each chunk/archive of the GUI packager, and once before each
folder's `zip_with_limit` call in the CLI — not before each individual
file. A token already set when packaging starts is observed at that first
check: no member file is written and the outcome is cancellation. Between
those checks, files of the current chunk (GUI) or the whole folder (CLI)
are still written after the token is set. -/
theorem C6_amended :
    (∀ batch material onDisk rows,
      runPkg 0 (Gui.run_conversion_trace batch material onDisk rows) = ([], true))
    ∧ (∀ base files meta,
      runPkg 0 (Conv.conv_folder_trace base files meta) = ([], true))
    ∧ (∀ batch material onDisk rows,
      archGuarded (Gui.run_conversion_trace batch material onDisk rows) false = true) := by
  refine ⟨fun batch material onDisk rows => rfl, fun base files meta => rfl, ?_⟩
  intro batch material onDisk rows
  show archGuarded (PkgAct.check :: _) false = true
  rw [archGuarded_check]
  exact archGuarded_chunkTraces (Gui.chunks rows).enum
    (fun p => Gui.guiZipName batch (Gui.safeMaterial material) (Gui.chunks rows).length
      (p.1 + 1)) onDisk true

/-- Claim C3 counterexample: converter.py `main` maps the cancellation
`RuntimeError` and a fatal exception to the same exit code 1 (lines
323-330), so the outcome the CLI reports to its caller does not
distinguish a cancelled run from a failed one. -/
theorem C3_counterexample :
    Conv.mainExitCode (Conv.RunEnd.cancelled "Conversion cancelled by user.") =
      Conv.mainExitCode (Conv.RunEnd.failed "Unexpected error.") := rfl

/-- Claim C3 (amended): the GUI reports three pairwise distinct terminal
statuses (success, cancellation, error). The CLI's exit code distinguishes
success from the rest but conflates cancellation with fatal failure (both
exit 1); the two are told apart only by the severity of the terminal log
record (`logger.warning` versus `logger.exception`). -/
theorem C3_amended (m m2 : String) :
    Gui.guiStatusText (Conv.RunEnd.cancelled m) ≠ Gui.guiStatusText (Conv.RunEnd.failed m2)
    ∧ Gui.guiStatusText (Conv.RunEnd.cancelled m) ≠ Gui.guiStatusText Conv.RunEnd.ok
    ∧ Gui.guiStatusText (Conv.RunEnd.failed m2) ≠ Gui.guiStatusText Conv.RunEnd.ok
    ∧ Conv.mainExitCode (Conv.RunEnd.cancelled m) = Conv.mainExitCode (Conv.RunEnd.failed m2)
    ∧ Conv.mainExitCode Conv.RunEnd.ok ≠ Conv.mainExitCode (Conv.RunEnd.cancelled m)
    ∧ Conv.mainLogSeverity (Conv.RunEnd.cancelled m) ≠
        Conv.mainLogSeverity (Conv.RunEnd.failed m2) := by
  refine ⟨?_, ?_, ?_, rfl, ?_, ?_⟩
  · show ("Cancelled by user." : String) ≠ "Error occurred."
    decide
  · show ("Cancelled by user." : String) ≠ "All tasks completed successfully."
    decide
  · show ("Error occurred." : String) ≠ "All tasks completed successfully."
    decide
  · show (0 : Nat) ≠ 1
    decide
  · show Conv.Severity.warning ≠ Conv.Severity.error
    decide

/-- Claim C7 (evaluating the code at the failing input): the GUI
validator's docstring demands that every data row have all required
fields filled, but the loop checks only `filename`. A row with `batch`
missing and one with both `part_id` and `next_step` missing accumulate no
error at all: validation passes with both rows kept. A row missing only
`filename` shows the single check that does exist — one error, and the
`continue` skips the rest of that row's processing. -/
theorem C7_code_eval :
    ((Gui.validate_and_fix_meta REQUIRED_COLUMNS
        [["", "a.stl", "m", "p", "1", "n", "o", "t"],
         ["b", "c.stl", "m", "", "1", "", "o", "t"]]
        ["a.stl", "c.stl"]).map (fun st => (st.errors, st.cleaned.length)) =
      some ([], 2))
    ∧ Gui.guiValidatePassed REQUIRED_COLUMNS
        [["", "a.stl", "m", "p", "1", "n", "o", "t"],
         ["b", "c.stl", "m", "", "1", "", "o", "t"]]
        ["a.stl", "c.stl"] = true
    ∧ ((Gui.validate_and_fix_meta REQUIRED_COLUMNS
        [["b", "", "m", "p", "1", "n", "o", "t"]]
        ["a.stl"]).map (fun st => (st.errors, st.cleaned.length)) =
      some (["Row 2: missing filename"], 0)) := by
  refine ⟨rfl, rfl, rfl⟩

/-! ## Lemmas: header acceptance and the extra-column write failure -/

namespace Conv

lemma writeDictRow_ne_headerMismatch (r : Row) :
    writeDictRow r ≠ Except.error PyErr.headerMismatch := by
  unfold writeDictRow
  split
  · exact fun h => Except.noConfusion h
  · intro h
    injection h with h2
    exact PyErr.noConfusion h2

lemma writeRows_ne_headerMismatch (rs : List Row) :
    writeRows rs ≠ Except.error PyErr.headerMismatch := by
  induction rs with
  | nil => exact fun h => Except.noConfusion h
  | cons r t ih =>
    intro h
    unfold writeRows at h
    cases hw : writeDictRow r with
    | error e =>
      rw [hw] at h
      have h2 : Except.error (α := List (List String)) e =
          Except.error PyErr.headerMismatch := h
      injection h2 with h3
      subst h3
      exact writeDictRow_ne_headerMismatch r hw
    | ok out =>
      rw [hw] at h
      cases ht : writeRows t with
      | error e =>
        rw [ht] at h
        have h2 : Except.error (α := List (List String)) e =
            Except.error PyErr.headerMismatch := h
        injection h2 with h3
        subst h3
        exact ih ht
      | ok outs =>
        rw [ht] at h
        exact Except.noConfusion h

lemma dictRow_keys (header : List String) (cells : List String) :
    (dictRow header cells).map Prod.fst = header := by
  unfold dictRow
  rw [List.map_fst_zip]
  simp only [List.length_append, List.length_replicate]
  omega

lemma setKey_keys_mem {r : Row} {e : String} (he : e ∈ r.map Prod.fst) (k v : String) :
    e ∈ (setKey r k v).map Prod.fst := by
  unfold setKey
  split
  · obtain ⟨p, hp, hpe⟩ := List.mem_map.mp he
    refine List.mem_map.mpr ⟨if p.1 == k then (k, v) else p, List.mem_map_of_mem _ hp, ?_⟩
    by_cases hk : p.1 == k
    · rw [if_pos hk]
      rw [← hpe]
      exact (beq_iff_eq.mp hk).symm
    · rw [if_neg hk]
      exact hpe
  · rw [List.map_append]
    exact List.mem_append_left _ he

lemma fixCopies_keys_mem {r : Row} {e : String} (he : e ∈ r.map Prod.fst) :
    e ∈ (fixCopies r).map Prod.fst := by
  show e ∈ (if (pyStripWS (rowGet r "copies") == "" ||
      pyStripWS (rowGet r "copies") == "0") = true then
      setKey r "copies" "1" else r).map Prod.fst
  split
  · exact setKey_keys_mem he _ _
  · exact he

lemma fixFilename_keys_mem {r : Row} {e : String} (he : e ∈ r.map Prod.fst) :
    e ∈ (fixFilename r).map Prod.fst := by
  show e ∈ (if (pyStripWS (rowGet r "filename") != "" &&
      !(pyEndsWith (pyLower (pyStripWS (rowGet r "filename"))) ".stl")) = true then
      setKey r "filename" (pyStripWS (rowGet r "filename") ++ ".stl") else r).map Prod.fst
  split
  · exact setKey_keys_mem he _ _
  · exact he

lemma fixRow_keys_mem {r : Row} {e : String} (he : e ∈ r.map Prod.fst) :
    e ∈ (fixRow r).map Prod.fst :=
  fixFilename_keys_mem (fixCopies_keys_mem he)

lemma writeDictRow_extraKey {r : Row} {e : String} (he : e ∈ r.map Prod.fst)
    (hne : e ∉ REQUIRED_COLUMNS) : writeDictRow r = Except.error PyErr.extraKey := by
  unfold writeDictRow
  rw [if_neg]
  intro hall
  obtain ⟨p, hp, hpe⟩ := List.mem_map.mp he
  have h2 := List.all_eq_true.mp hall p hp
  rw [hpe] at h2
  exact hne (List.mem_of_elem_eq_true h2)

end Conv

/-- Claim C8 counterexample: a manifest whose header adds a ninth column
passes the header check (only the first 8 cells are compared), but its
rows are not written out normally — the `DictWriter` pass rejects the
extra column and the whole validation raises instead of producing the
output buffer. -/
theorem C8_counterexample :
    Conv.validate_and_fix_meta_buffer false (REQUIRED_COLUMNS ++ ["extra"])
        [["b", "f.stl", "m", "p", "1", "n", "o", "t", "x"]] =
      Except.error Conv.PyErr.extraKey := by
  rfl

/-- Claim C8 (amended): header validation does compare only the first 8
header cells (trimmed, lower-cased, order-sensitive) — any manifest whose
normalized first 8 header cells match the schema is never rejected with
the header-mismatch error. But a manifest with additional columns beyond
the schema's 8 is not written out normally: with at least one data row,
the output-writing pass fails on the first row's extra column. -/
theorem C8_amended :
    (∀ header rawRows,
      (header.take REQUIRED_COLUMNS.length).map normCell = REQUIRED_COLUMNS →
      Conv.validate_and_fix_meta_buffer false header rawRows ≠
        Except.error Conv.PyErr.headerMismatch)
    ∧ (∀ extras rawRows, extras ≠ [] → rawRows ≠ [] →
      (∀ e ∈ extras, e ∉ REQUIRED_COLUMNS) →
      Conv.validate_and_fix_meta_buffer false (REQUIRED_COLUMNS ++ extras) rawRows =
        Except.error Conv.PyErr.extraKey) := by
  constructor
  · intro header rawRows hh
    unfold Conv.validate_and_fix_meta_buffer
    rw [if_neg (by
      intro hne
      exact hne hh)]
    rw [if_neg (by simp)]
    exact Conv.writeRows_ne_headerMismatch _
  · intro extras rawRows hex hrow hdisj
    unfold Conv.validate_and_fix_meta_buffer
    rw [if_neg (by
      intro hne
      apply hne
      rw [show (REQUIRED_COLUMNS ++ extras).take REQUIRED_COLUMNS.length
            = REQUIRED_COLUMNS from List.take_left REQUIRED_COLUMNS extras]
      decide)]
    rw [if_neg (by simp)]
    cases extras with
    | nil => exact absurd rfl hex
    | cons e0 etl =>
      cases rawRows with
      | nil => exact absurd rfl hrow
      | cons r0 rtl =>
        rw [List.map_cons, List.map_cons]
        have hkey : e0 ∈ (Conv.fixRow (dictRow (REQUIRED_COLUMNS ++ e0 :: etl) r0)).map
            Prod.fst := by
          apply Conv.fixRow_keys_mem
          rw [Conv.dictRow_keys]
          exact List.mem_append_right _ (List.mem_cons_self e0 etl)
        have hw := Conv.writeDictRow_extraKey hkey
          (hdisj e0 (List.mem_cons_self e0 etl))
        unfold Conv.writeRows
        rw [hw]

/-- Witness for C8 (amended): the 9-column manifest of the counterexample,
instantiating both halves — the header check passes (the result is not the
header-mismatch error) yet validation ends in the extra-column error. -/
theorem C8_amended_witness :
    Conv.validate_and_fix_meta_buffer false (REQUIRED_COLUMNS ++ ["extra2"])
        [["b", "g.stl", "m", "p", "1", "n", "o", "t", "y"]] =
      Except.error Conv.PyErr.extraKey ∧
    Conv.validate_and_fix_meta_buffer false (REQUIRED_COLUMNS ++ ["extra2"])
        [["b", "g.stl", "m", "p", "1", "n", "o", "t", "y"]] ≠
      Except.error Conv.PyErr.headerMismatch :=
  ⟨C8_amended.2 ["extra2"] [["b", "g.stl", "m", "p", "1", "n", "o", "t", "y"]]
      (by decide) (by decide) (by decide),
   C8_amended.1 (REQUIRED_COLUMNS ++ ["extra2"])
      [["b", "g.stl", "m", "p", "1", "n", "o", "t", "y"]] (by decide)⟩

/-! ## Lemmas: the frame property of the byte-capped validator -/

lemma list_length_eight {r : List String} (h : r.length = 8) :
    ∃ a b c d e f g h8, r = [a, b, c, d, e, f, g, h8] := by
  rcases r with _ | ⟨a, r⟩
  · simp at h
  rcases r with _ | ⟨b, r⟩
  · simp at h
  rcases r with _ | ⟨c, r⟩
  · simp at h
  rcases r with _ | ⟨d, r⟩
  · simp at h
  rcases r with _ | ⟨e, r⟩
  · simp at h
  rcases r with _ | ⟨f, r⟩
  · simp at h
  rcases r with _ | ⟨g, r⟩
  · simp at h
  rcases r with _ | ⟨h8, r⟩
  · simp at h
  rcases r with _ | ⟨x, r⟩
  · exact ⟨a, b, c, d, e, f, g, h8, rfl⟩
  · simp only [List.length_cons] at h
    omega

lemma writeDictRow_fixRow_frame (a b c d e f g h : String) :
    ∃ out : List String,
      Conv.writeDictRow (Conv.fixRow (dictRow REQUIRED_COLUMNS [a, b, c, d, e, f, g, h])) =
        Except.ok out ∧
      out.getD 0 "" = a ∧ out.getD 2 "" = c ∧ out.getD 3 "" = d ∧
      out.getD 5 "" = f ∧ out.getD 6 "" = g ∧ out.getD 7 "" = h := by
  show ∃ out,
    Conv.writeDictRow (Conv.fixFilename (Conv.fixCopies
      [("batch", a), ("filename", b), ("material", c), ("part_id", d),
       ("copies", e), ("next_step", f), ("order_id", g), ("technology", h)])) =
      Except.ok out ∧
    out.getD 0 "" = a ∧ out.getD 2 "" = c ∧ out.getD 3 "" = d ∧
    out.getD 5 "" = f ∧ out.getD 6 "" = g ∧ out.getD 7 "" = h
  by_cases hc : (pyStripWS e == "" || pyStripWS e == "0") = true
  · rw [show Conv.fixCopies
        [("batch", a), ("filename", b), ("material", c), ("part_id", d),
         ("copies", e), ("next_step", f), ("order_id", g), ("technology", h)] =
        [("batch", a), ("filename", b), ("material", c), ("part_id", d),
         ("copies", "1"), ("next_step", f), ("order_id", g), ("technology", h)] by
      show (if (pyStripWS e == "" || pyStripWS e == "0") = true then _ else _) = _
      rw [if_pos hc]
      rfl]
    by_cases hf : (pyStripWS b != "" && !(pyEndsWith (pyLower (pyStripWS b)) ".stl")) = true
    · rw [show Conv.fixFilename
          [("batch", a), ("filename", b), ("material", c), ("part_id", d),
           ("copies", "1"), ("next_step", f), ("order_id", g), ("technology", h)] =
          [("batch", a), ("filename", pyStripWS b ++ ".stl"), ("material", c),
           ("part_id", d), ("copies", "1"), ("next_step", f), ("order_id", g),
           ("technology", h)] by
        show (if (pyStripWS b != "" &&
            !(pyEndsWith (pyLower (pyStripWS b)) ".stl")) = true then _ else _) = _
        rw [if_pos hf]
        rfl]
      exact ⟨_, rfl, rfl, rfl, rfl, rfl, rfl, rfl⟩
    · rw [show Conv.fixFilename
          [("batch", a), ("filename", b), ("material", c), ("part_id", d),
           ("copies", "1"), ("next_step", f), ("order_id", g), ("technology", h)] =
          [("batch", a), ("filename", b), ("material", c), ("part_id", d),
           ("copies", "1"), ("next_step", f), ("order_id", g), ("technology", h)] by
        show (if (pyStripWS b != "" &&
            !(pyEndsWith (pyLower (pyStripWS b)) ".stl")) = true then _ else _) = _
        rw [if_neg hf]]
      exact ⟨_, rfl, rfl, rfl, rfl, rfl, rfl, rfl⟩
  · rw [show Conv.fixCopies
        [("batch", a), ("filename", b), ("material", c), ("part_id", d),
         ("copies", e), ("next_step", f), ("order_id", g), ("technology", h)] =
        [("batch", a), ("filename", b), ("material", c), ("part_id", d),
         ("copies", e), ("next_step", f), ("order_id", g), ("technology", h)] by
      show (if (pyStripWS e == "" || pyStripWS e == "0") = true then _ else _) = _
      rw [if_neg hc]]
    by_cases hf : (pyStripWS b != "" && !(pyEndsWith (pyLower (pyStripWS b)) ".stl")) = true
    · rw [show Conv.fixFilename
          [("batch", a), ("filename", b), ("material", c), ("part_id", d),
           ("copies", e), ("next_step", f), ("order_id", g), ("technology", h)] =
          [("batch", a), ("filename", pyStripWS b ++ ".stl"), ("material", c),
           ("part_id", d), ("copies", e), ("next_step", f), ("order_id", g),
           ("technology", h)] by
        show (if (pyStripWS b != "" &&
            !(pyEndsWith (pyLower (pyStripWS b)) ".stl")) = true then _ else _) = _
        rw [if_pos hf]
        rfl]
      exact ⟨_, rfl, rfl, rfl, rfl, rfl, rfl, rfl⟩
    · rw [show Conv.fixFilename
          [("batch", a), ("filename", b), ("material", c), ("part_id", d),
           ("copies", e), ("next_step", f), ("order_id", g), ("technology", h)] =
          [("batch", a), ("filename", b), ("material", c), ("part_id", d),
           ("copies", e), ("next_step", f), ("order_id", g), ("technology", h)] by
        show (if (pyStripWS b != "" &&
            !(pyEndsWith (pyLower (pyStripWS b)) ".stl")) = true then _ else _) = _
        rw [if_neg hf]]
      exact ⟨_, rfl, rfl, rfl, rfl, rfl, rfl, rfl⟩

lemma validate_writeRows_form (rawRows : List (List String)) :
    Conv.validate_and_fix_meta_buffer false REQUIRED_COLUMNS rawRows =
      Conv.writeRows ((rawRows.map (dictRow REQUIRED_COLUMNS)).map Conv.fixRow) := by
  unfold Conv.validate_and_fix_meta_buffer
  rw [if_neg (by decide), if_neg (by simp)]

lemma writeRows_frame (rows : List (List String)) (h8 : ∀ r ∈ rows, r.length = 8) :
    ∃ outs, Conv.writeRows ((rows.map (dictRow REQUIRED_COLUMNS)).map Conv.fixRow) =
        Except.ok outs ∧
      outs.length = rows.length ∧
      ∀ i j, j < 8 → j ≠ 1 → j ≠ 4 →
        (outs.getD i []).getD j "" = (rows.getD i []).getD j "" := by
  induction rows with
  | nil =>
    refine ⟨[], rfl, rfl, ?_⟩
    intro i j _ _ _
    rfl
  | cons r t ih =>
    obtain ⟨a, b, c, d, e, f, g, h8v, rfl⟩ :=
      list_length_eight (h8 r (List.mem_cons_self r t))
    obtain ⟨out, hout, f0, f2, f3, f5, f6, f7⟩ := writeDictRow_fixRow_frame a b c d e f g h8v
    obtain ⟨outs, houts, hlen, hframe⟩ := ih (fun x hx => h8 x (List.mem_cons_of_mem _ hx))
    refine ⟨out :: outs, ?_, by simp [hlen], ?_⟩
    · rw [List.map_cons, List.map_cons]
      unfold Conv.writeRows
      rw [hout, houts]
    · intro i j hj hj1 hj4
      cases i with
      | zero =>
        simp only [List.getD_cons_zero]
        interval_cases j
        · exact f0
        · exact absurd rfl hj1
        · exact f2
        · exact f3
        · exact absurd rfl hj4
        · exact f5
        · exact f6
        · exact f7
      | succ i =>
        simp only [List.getD_cons_succ]
        exact hframe i j hj hj1 hj4

/-- Claim C10 counterexample: the header `["Batch", "filename", …]`
passes the case-insensitive header check (second conjunct), so the claim
covers this manifest; but the row dicts keep the raw header spelling, and
the `DictWriter` pass rejects the key `"Batch"` outside its lowercase
fieldnames — validation raises and no output rows are produced at all,
refuting that the output contains the same rows as the input. -/
theorem C10_counterexample :
    Conv.validate_and_fix_meta_buffer false
        ["Batch", "filename", "material", "part_id",
         "copies", "next_step", "order_id", "technology"]
        [["b1", "f.stl", "m", "p", "1", "n", "o", "t"]] =
      Except.error Conv.PyErr.extraKey
    ∧ (["Batch", "filename", "material", "part_id",
        "copies", "next_step", "order_id", "technology"].take
          REQUIRED_COLUMNS.length).map normCell = REQUIRED_COLUMNS := by
  refine ⟨rfl, by decide⟩

/-- Claim C10 (amended): for every manifest whose header cells are
literally the schema's 8 column names and whose rows have exactly those 8
columns, the byte-capped validator succeeds, keeps every row (blank rows
included) in order — no row dropped or added — and returns every field
other than `filename` (column 1) and `copies` (column 4) unchanged. A
manifest that passes the case-insensitive header check but whose header
contains any cell off the exact schema spelling is instead not written
out at all: with at least one row, the output pass fails on that cell's
key. -/
theorem C10_amended :
    (∀ rawRows : List (List String), (∀ r ∈ rawRows, r.length = 8) →
      ∃ outs, Conv.validate_and_fix_meta_buffer false REQUIRED_COLUMNS rawRows =
          Except.ok outs ∧
        outs.length = rawRows.length ∧
        ∀ i j, j < 8 → j ≠ 1 → j ≠ 4 →
          (outs.getD i []).getD j "" = (rawRows.getD i []).getD j "")
    ∧ (∀ header rawRows (e : String),
        (header.take REQUIRED_COLUMNS.length).map normCell = REQUIRED_COLUMNS →
        e ∈ header → e ∉ REQUIRED_COLUMNS → rawRows ≠ [] →
        Conv.validate_and_fix_meta_buffer false header rawRows =
          Except.error Conv.PyErr.extraKey) := by
  constructor
  · intro rawRows h8
    rw [validate_writeRows_form]
    exact writeRows_frame rawRows h8
  · intro header rawRows e hh he hne hrow
    unfold Conv.validate_and_fix_meta_buffer
    rw [if_neg (fun hcon => hcon hh), if_neg (by simp)]
    cases rawRows with
    | nil => exact absurd rfl hrow
    | cons r0 rtl =>
      rw [List.map_cons, List.map_cons]
      have hkey : e ∈ (Conv.fixRow (dictRow header r0)).map Prod.fst := by
        apply Conv.fixRow_keys_mem
        rw [Conv.dictRow_keys]
        exact he
      have hw := Conv.writeDictRow_extraKey hkey hne
      unfold Conv.writeRows
      rw [hw]

/-- Witness for C10 (amended), exercising both halves: with the exact
schema header, a manifest with one data row and one all-blank row
validates successfully (the blank row is not dropped); with a header
whose `filename` cell is spelled `"Filename"` — accepted by the
case-insensitive check — validation ends in the extra-key error instead
of producing output. -/
theorem C10_amended_witness :
    (Conv.validate_and_fix_meta_buffer false REQUIRED_COLUMNS
        [["b1", "part1", "m", "p", "", "n", "o", "t"],
         ["", "", "", "", "", "", "", ""]]).isOk = true
    ∧ Conv.validate_and_fix_meta_buffer false
        ["batch", "Filename", "material", "part_id",
         "copies", "next_step", "order_id", "technology"]
        [["b1", "g.stl", "m", "p", "1", "n", "o", "t"]] =
      Except.error Conv.PyErr.extraKey := by
  constructor
  · obtain ⟨outs, h1, _, _⟩ := C10_amended.1
        [["b1", "part1", "m", "p", "", "n", "o", "t"],
         ["", "", "", "", "", "", "", ""]] (by decide)
    rw [h1]
    rfl
  · exact C10_amended.2
      ["batch", "Filename", "material", "part_id",
       "copies", "next_step", "order_id", "technology"]
      [["b1", "g.stl", "m", "p", "1", "n", "o", "t"]] "Filename"
      (by decide) (by decide) (by decide) (by decide)

/-! A quick sanity check of the embedding on concrete names. -/

example : Gui.sanitize_filename "a b(1).stl" = "a_b_1_.stl" := by decide

example : Conv.validate_and_fix_meta_buffer false REQUIRED_COLUMNS
    [["b", "part1", "m", "p", "", "n", "o", "t"]] =
    Except.ok [["b", "part1.stl", "m", "p", "1", "n", "o", "t"]] := by rfl
